import Mathlib

/-!
Shallow embedding of the ContentParser disclaimer widget (src/parser.js,
src/unnamed/part_000, src/unnamed/part_001) and proofs about its
specification claims.

Modelling conventions:
* JavaScript primitive values appearing in feed records are modelled by
  `JsVal` (strings, integers, booleans) with JavaScript truthiness.
* Strings are modelled as Lean `String` / `List Char`; JavaScript string
  methods used by the source (`replace` with the concrete regexes, `trim`,
  `split`, `includes`, `toUpperCase`, `toLowerCase`) are modelled
  character-exactly on `List Char`.
* Browser collaborators (`new URL`, `Date`, jQuery fetch, the DOM) are
  modelled at their observable interface: URL parsing for http(s) URLs,
  timestamps as integers under an order-preserving encoding, the fetch as
  an input describing its outcome, the container as a list of rendered
  nodes held in an explicit widget state.
-/

/-- JavaScript primitive values that occur in feed records. -/
inductive JsVal where
  | str : String → JsVal
  | num : Int → JsVal
  | bool : Bool → JsVal
deriving DecidableEq, Repr

/-- JavaScript truthiness of a `JsVal`. -/
def JsVal.truthy : JsVal → Bool
  | .str s => s ≠ ""
  | .num n => n ≠ 0
  | .bool b => b

/-- JavaScript `String(v)` coercion. -/
def jsValToString : JsVal → String
  | .str s => s
  | .num n => toString n
  | .bool b => if b then "true" else "false"

/-- Truthiness of a possibly-absent field (`undefined` is falsy). -/
def fieldTruthy : Option JsVal → Bool
  | none => false
  | some v => v.truthy

/-- JavaScript string coercion of a possibly-absent value
(`String(undefined) = "undefined"`, as in template literals and object keys). -/
def jsKey : Option JsVal → String
  | none => "undefined"
  | some v => jsValToString v

/-- The C0/C1 control ranges removed by `normalizeText`
(regex `[\x00-\x1F\x7F-\x9F]`). -/
def isCtrl (c : Char) : Bool :=
  c.toNat ≤ 0x1F || (0x7F ≤ c.toNat && c.toNat ≤ 0x9F)

/-- JavaScript `\s` (also the set stripped by `String.prototype.trim`). -/
def isJsWs (c : Char) : Bool :=
  c = ' ' || c = '\t' || c = '\n' || c.toNat = 0x0B || c.toNat = 0x0C ||
  c = '\r' || c.toNat = 0xA0 || c.toNat = 0x1680 ||
  (0x2000 ≤ c.toNat && c.toNat ≤ 0x200A) ||
  c.toNat = 0x2028 || c.toNat = 0x2029 || c.toNat = 0x202F ||
  c.toNat = 0x205F || c.toNat = 0x3000 || c.toNat = 0xFEFF

/-- The five characters escaped by `normalizeText`. -/
def isEscChar (c : Char) : Bool :=
  c = '&' || c = '<' || c = '>' || c = '\x22' || c = '\x27'

/-- JavaScript `s.replace(/c/g, r)` for a single-character pattern `c`. -/
def replaceChar (c : Char) (r : List Char) : List Char → List Char
  | [] => []
  | x :: xs => (if x = c then r else [x]) ++ replaceChar c r xs

/-- The five sequential entity-escaping replacements of `normalizeText`,
in source order: `&`, `<`, `>`, `"`, `'`. -/
def escapeChars (l : List Char) : List Char :=
  replaceChar '\x27' "&#039;".data
    (replaceChar '\x22' "&quot;".data
      (replaceChar '>' "&gt;".data
        (replaceChar '<' "&lt;".data
          (replaceChar '&' "&amp;".data l))))

/-- `replace(/[\x00-\x1F\x7F-\x9F]/g, '')`. -/
def stripCtrl (l : List Char) : List Char :=
  l.filter (fun c => !(isCtrl c))

/-- `replace(/\s+/g, ' ')`: collapse each maximal whitespace run to one
space.  `prevWs` records whether the previous character belonged to a run
already replaced. -/
def collapseWsAux : Bool → List Char → List Char
  | _, [] => []
  | prevWs, c :: cs =>
    if isJsWs c then
      if prevWs then collapseWsAux true cs
      else ' ' :: collapseWsAux true cs
    else c :: collapseWsAux false cs

/-- Left part of JavaScript `trim`. -/
def jsTrimLeftL (l : List Char) : List Char := l.dropWhile isJsWs

/-- Right part of JavaScript `trim`. -/
def jsTrimRightL (l : List Char) : List Char :=
  (l.reverse.dropWhile isJsWs).reverse

/-- `normalizeText` on the character list: escape entities, strip control
characters, collapse whitespace, trim. -/
def normalizeTextCore (l : List Char) : List Char :=
  jsTrimRightL (jsTrimLeftL (collapseWsAux false (stripCtrl (escapeChars l))))

/-- `ContentParser.normalizeText` (src/unnamed/part_001 lines 141-157),
string case.  Non-string inputs return `""` and are handled at call sites. -/
def normalizeText (s : String) : String := ⟨normalizeTextCore s.data⟩

/-- JavaScript `trim` (used by `validateDisclaimer` on title/text). -/
def jsTrimStr (s : String) : String := ⟨jsTrimRightL (jsTrimLeftL s.data)⟩

/-- Characters that terminate a URL match in `convertUrlsToAnchors`
(the regex class `[^\s<>"]`). -/
def isUrlStop (c : Char) : Bool :=
  isJsWs c || c = '<' || c = '>' || c = '\x22'

/-- Boolean list-prefix test (used to model anchored regex/`startsWith`
matching). -/
def isPre : List Char → List Char → Bool
  | [], _ => true
  | _ :: _, [] => false
  | a :: as, b :: bs => a = b && isPre as bs

/-- Split a leading `https://` or `http://` scheme from a character list,
returning the scheme and the remainder. -/
def schemeSplit (l : List Char) : Option (List Char × List Char) :=
  if isPre "https://".data l then some ("https://".data, l.drop 8)
  else if isPre "http://".data l then some ("http://".data, l.drop 7)
  else none

/-- The authority component following the scheme (up to `/`, `?` or `#`). -/
def authorityOf (rest : List Char) : List Char :=
  rest.takeWhile (fun c => !(c = '/' || c = '?' || c = '#'))

/-- Modelled from the browser collaborator: success of `new URL(url)` for a
scheme-matched candidate, approximated by a nonempty authority. -/
def urlParseable (url : List Char) : Bool :=
  match schemeSplit url with
  | some (_, rest) => !(authorityOf rest).isEmpty
  | none => false

/-- The anchor markup emitted by `convertUrlsToAnchors` for a parseable URL. -/
def anchorFor (url : List Char) : List Char :=
  let u := normalizeTextCore url
  "<a href=\x22".data ++ u ++
    "\x22 target=\x22_blank\x22 rel=\x22noopener noreferrer\x22>".data ++
    u ++ "</a>".data

/-- Left-to-right scan of `text.replace(/(https?:\/\/[^\s<>"]+)/g, ...)`.
The `fuel` argument is an implementation device making the recursion
structural; it is initialised to the list length, which every call chain
preserves as an upper bound on the remaining input. -/
def cutaFuel : Nat → List Char → List Char
  | 0, l => l
  | _ + 1, [] => []
  | fuel + 1, c :: cs =>
    match schemeSplit (c :: cs) with
    | some (scheme, rest) =>
      let tok := rest.takeWhile (fun x => !(isUrlStop x))
      if tok.isEmpty then c :: cutaFuel fuel cs
      else
        let url := scheme ++ tok
        let rep := if urlParseable url then anchorFor url else url
        rep ++ cutaFuel fuel (rest.drop tok.length)
    | none => c :: cutaFuel fuel cs

/-- `ContentParser.convertUrlsToAnchors` (src/unnamed/part_001 lines
164-181), string case. -/
def convertUrlsToAnchors (s : String) : String :=
  ⟨cutaFuel s.data.length s.data⟩

/-- `ContentParser.processText` (src/unnamed/part_001 lines 188-194):
normalize, then linkify. -/
def processText (s : String) : String :=
  convertUrlsToAnchors (normalizeText s)

/-- One raw feed record, as parsed from JSON/XML before validation.
Field names follow the feed contract (src/README.txt); `apex` is the
optional ordering hint read by `insertPageContents`. -/
structure Disclaimer where
  id : Option JsVal
  index : Option JsVal
  title : Option JsVal
  text : Option JsVal
  URLs : Option (List String)
  div : Option JsVal
  startDate : Option JsVal
  endDate : Option JsVal
  apex : Option Int
deriving DecidableEq, Repr

/-- Truthiness of the `URLs` field: a present array is truthy even when
empty, absence is falsy. -/
def urlsTruthy : Option (List String) → Bool
  | none => false
  | some _ => true

/-- The mandatory-field filter of `validateDisclaimer`
(`['id', 'index', 'title', 'text', 'URLs'].filter(f => !d[f])` empty). -/
def mandatoryOk (d : Disclaimer) : Bool :=
  fieldTruthy d.id && fieldTruthy d.index && fieldTruthy d.title &&
  fieldTruthy d.text && urlsTruthy d.URLs

/-- `typeof v === 'string' || typeof v === 'number'`. -/
def isStringOrNumber : Option JsVal → Bool
  | some (.str _) => true
  | some (.num _) => true
  | _ => false

/-- `typeof v === 'string' && v.trim() !== ''`. -/
def nonEmptyStringField : Option JsVal → Bool
  | some (.str s) => jsTrimStr s ≠ ""
  | _ => false

def isLowerAlpha (c : Char) : Bool := 'a' ≤ c && c ≤ 'z'

/-- JavaScript regex `.` (anything but a line terminator). -/
def isRegexDot (c : Char) : Bool :=
  !(c = '\n' || c = '\r' || c.toNat = 0x2028 || c.toNat = 0x2029)

/-- `ContentParser.isValidSamsungURL` (src/unnamed/part_001 lines 78-85):
the anchored regex `^https://www\.samsung\.com/[a-z]{2}/.*$`. -/
def isValidSamsungURL (url : String) : Bool :=
  let pre := "https://www.samsung.com/".data
  if isPre pre url.data then
    match url.data.drop pre.length with
    | c1 :: c2 :: '/' :: tail =>
      isLowerAlpha c1 && isLowerAlpha c2 && tail.all isRegexDot
    | _ => false
  else false

/-- `ContentParser.validateDisclaimerURLs` (src/unnamed/part_001 lines
122-134). -/
def validateDisclaimerURLs (d : Disclaimer) : Bool :=
  match d.URLs with
  | none => false
  | some us => us.all isValidSamsungURL

def isLeapYear (y : Nat) : Bool :=
  y % 4 = 0 && (y % 100 ≠ 0 || y % 400 = 0)

def daysInMonth (y m : Nat) : Nat :=
  if m = 2 then (if isLeapYear y then 29 else 28)
  else if m = 4 || m = 6 || m = 9 || m = 11 then 30
  else 31

def digit2 (a b : Char) : Nat := (a.toNat - 48) * 10 + (b.toNat - 48)

/-- The shape test `^\d{4}-\d{2}-\d{2} \d{2}:\d{2}:\d{2}$` together with
the calendar validity enforced by `new Date(s.replace(' ', 'T'))` on an
ISO-format string (out-of-range components give an invalid date; hour 24
is accepted only as 24:00:00). -/
def isValidISODate (s : String) : Bool :=
  match s.data with
  | [y1, y2, y3, y4, '-', m1, m2, '-', d1, d2, ' ',
     h1, h2, ':', n1, n2, ':', s1, s2] =>
    [y1, y2, y3, y4, m1, m2, d1, d2, h1, h2, n1, n2, s1, s2].all
        Char.isDigit &&
    (let y := digit2 y1 y2 * 100 + digit2 y3 y4
     let mo := digit2 m1 m2
     let da := digit2 d1 d2
     let h := digit2 h1 h2
     let mi := digit2 n1 n2
     let se := digit2 s1 s2
     decide (1 ≤ mo) && decide (mo ≤ 12) && decide (1 ≤ da) &&
     decide (da ≤ daysInMonth y mo) &&
     (decide (h ≤ 23) || (decide (h = 24) && decide (mi = 0) && decide (se = 0))) &&
     decide (mi ≤ 59) && decide (se ≤ 59))
  | _ => false

/-- `ContentParser.validateDisclaimer` (src/unnamed/part_001 lines
201-257), with the checks in source order. -/
def validateDisclaimer (d : Disclaimer) : Bool :=
  if !(mandatoryOk d) then false
  else if !(isStringOrNumber d.id) then false
  else if !(nonEmptyStringField d.title) then false
  else if !(nonEmptyStringField d.text) then false
  else if !(match d.URLs with | some us => !us.isEmpty | none => false) then false
  else if !(validateDisclaimerURLs d) then false
  else if fieldTruthy d.div &&
          !(match d.div with | some (.str _) => true | _ => false) then false
  else if fieldTruthy d.startDate && !(isValidISODate (jsKey d.startDate)) then
    false
  else if fieldTruthy d.endDate && !(isValidISODate (jsKey d.endDate)) then
    false
  else true

/-- The diagnostics entry `disclaimer.id || 'unknown'` pushed by
`processDisclaimers` for a rejected record. -/
def jsIdOrUnknown (d : Disclaimer) : JsVal :=
  match d.id with
  | some v => if v.truthy then v else .str "unknown"
  | none => .str "unknown"

/-- `normalizeText` applied to a field value
(non-strings and `undefined` yield `""`). -/
def normalizeTextVal : Option JsVal → String
  | some (.str s) => normalizeText s
  | _ => ""

/-- `processText` applied to a field value. -/
def processTextVal : Option JsVal → String
  | some (.str s) => processText s
  | _ => ""

/-- The in-place mutation `processDisclaimers` performs on a record that
passed validation: `title` is normalized, `text` is normalized and
linkified. -/
def normalizeRecord (d : Disclaimer) : Disclaimer :=
  { d with
    title := some (.str (normalizeTextVal d.title))
    text := some (.str (processTextVal d.text)) }

/-- Stable insertion used to model the (specified-stable) JavaScript
`Array.prototype.sort` and the ascending enumeration of integer-like
object keys. -/
def insertLe {α : Type} (le : α → α → Bool) (a : α) : List α → List α
  | [] => [a]
  | b :: bs => if le a b then a :: b :: bs else b :: insertLe le a bs

/-- Stable sort modelling `Array.prototype.sort` with a comparator. -/
def sortLe {α : Type} (le : α → α → Bool) : List α → List α
  | [] => []
  | a :: as => insertLe le a (sortLe le as)

/-- Value of a (non-empty) digit string. -/
def natOfDigits (l : List Char) : Nat :=
  l.foldl (fun acc c => acc * 10 + (c.toNat - 48)) 0

/-- A JavaScript array-index property key: the canonical decimal string
of an integer in `[0, 2^32 - 1)`.  Such keys enumerate before all other
keys, in ascending numeric order. -/
def isArrayIndexKey (s : String) : Bool :=
  match s.data with
  | [] => false
  | ['0'] => true
  | '0' :: _ :: _ => false
  | l => l.all Char.isDigit && natOfDigits l < 4294967295

/-- JavaScript object property assignment `m[k] = v`: an existing key
keeps its position and its value is overwritten; a new key is appended. -/
def jsObjectAssign (m : List (String × Disclaimer)) (k : String)
    (v : Disclaimer) : List (String × Disclaimer) :=
  if m.any (fun p => p.1 == k) then
    m.map (fun p => if p.1 == k then (k, v) else p)
  else m ++ [(k, v)]

/-- JavaScript `Object.values(m)` for an object represented as an
association list with unique keys: array-index keys first in ascending
numeric order, then the remaining keys in insertion order. -/
def jsObjectValues (m : List (String × Disclaimer)) : List Disclaimer :=
  (sortLe (fun p q => natOfDigits p.1.data ≤ natOfDigits q.1.data)
      (m.filter (fun p => isArrayIndexKey p.1))
    ++ m.filter (fun p => !(isArrayIndexKey p.1))).map Prod.snd

/-- The `forEach` loop of `processDisclaimers`, accumulating the
`validDisclaimers` object and the `invalidDisclaimers` push list from
left to right. -/
def processDisclaimersAux :
    List (String × Disclaimer) × List JsVal → List Disclaimer →
    List (String × Disclaimer) × List JsVal
  | acc, [] => acc
  | (m, inv), d :: ds =>
    if validateDisclaimer d then
      processDisclaimersAux
        (jsObjectAssign m (jsKey d.id) (normalizeRecord d), inv) ds
    else
      processDisclaimersAux (m, inv ++ [jsIdOrUnknown d]) ds

/-- `ContentParser.processDisclaimers` (src/unnamed/part_001 lines
367-386).  The `validDisclaimers` object is modelled as an association
list with JavaScript object-assignment semantics: keyed by the string
coercion of the record's `id`, a duplicate id overwriting the earlier
record in place. -/
def processDisclaimers (ds : List Disclaimer) :
    List (String × Disclaimer) × List JsVal :=
  processDisclaimersAux ([], []) ds

/-- The outcome of the fetch-and-parse front end of `loadData`: a
transport failure, a parse exception, or parsed content whose top-level
`disclaimers` member is absent (`none`) or present (the record collection;
`Object.values` of the object form). -/
inductive FeedInput where
  | fetchFail : String → FeedInput
  | parseFail : String → FeedInput
  | parsed : Option (List Disclaimer) → FeedInput
deriving DecidableEq

/-- `ContentParser.loadData` (src/unnamed/part_001 lines 293-360): the
resolved value is the validated feed (with the diagnostics list that is
reported via `console.warn` as second component); each failure mode
rejects with the corresponding message. -/
def loadData (f : FeedInput) :
    Except String (List (String × Disclaimer) × List JsVal) :=
  match f with
  | .fetchFail t => .error ("dParser > failed to load DATA: " ++ t)
  | .parseFail m => .error ("dParser > invalid DATA format: " ++ m)
  | .parsed none => .error "dParser > invalid DATA format: missing disclaimers"
  | .parsed (some ds) => .ok (processDisclaimers ds)

/-- `ContentParser.init` (src/unnamed/part_001 lines 434-451): load, then
re-validate every stored record (`Object.values(data.disclaimers)`) and
reject with `Invalid JSON format` if any fails. -/
def init (f : FeedInput) : Except String (List (String × Disclaimer)) :=
  match loadData f with
  | .error e => .error e
  | .ok vi =>
    if (jsObjectValues vi.1).any (fun d => !(validateDisclaimer d)) then
      .error "Invalid JSON format"
    else .ok vi.1

/-- JavaScript `String.split('/')` on a character list. -/
def splitOnSlash : List Char → List (List Char)
  | [] => [[]]
  | c :: cs =>
    let r := splitOnSlash cs
    if c = '/' then [] :: r
    else
      match r with
      | h :: t => (c :: h) :: t
      | [] => [[c]]

/-- Inverse of `splitOnSlash` used for `parts.join('/')`. -/
def joinSlash : List (List Char) → List Char
  | [] => []
  | [p] => p
  | p :: ps => p ++ '/' :: joinSlash ps

/-- JavaScript `String.split(',')` on a string, as used on
`currentDivision`. -/
def splitOnComma : List Char → List (List Char)
  | [] => [[]]
  | c :: cs =>
    let r := splitOnComma cs
    if c = ',' then [] :: r
    else
      match r with
      | h :: t => (c :: h) :: t
      | [] => [[c]]

def strSplitComma (s : String) : List String :=
  (splitOnComma s.data).map (fun l => ⟨l⟩)

/-- ASCII-exact model of JavaScript `toUpperCase` on the strings this
program compares (division codes). -/
def strToUpper (s : String) : String := ⟨s.data.map Char.toUpper⟩

/-- ASCII-exact model of JavaScript `toLowerCase` / the hostname
lower-casing performed by the URL parser. -/
def strToLower (s : String) : String := ⟨s.data.map Char.toLower⟩

/-- JavaScript `Array.prototype.includes` on strings (strict equality). -/
def memStr (x : String) : List String → Bool
  | [] => false
  | y :: ys => x == y || memStr x ys

/-- `replace(/\.html$/, '')`. -/
def stripHtmlSuffixL (l : List Char) : List Char :=
  if isPre ".html".data.reverse l.reverse then (l.reverse.drop 5).reverse else l

/-- `replace(/^\/|\/$/g, '')`: one leading and one trailing slash
removed (non-overlapping, left to right). -/
def stripEdgeSlashes (l : List Char) : List Char :=
  let l1 := match l with
    | '/' :: t => t
    | _ => l
  match l1.getLast? with
  | some '/' => l1.dropLast
  | _ => l1

/-- Modelled from the browser collaborator `new URL(url).pathname` for an
absolute http(s) URL (query and fragment excluded, `/` when the path is
empty); `none` when the URL has no http(s) scheme (`new URL` throws). -/
def pathnameOf? (url : String) : Option (List Char) :=
  match schemeSplit url.data with
  | none => none
  | some (_, rest) =>
    let after := rest.dropWhile (fun c => !(c = '/' || c = '?' || c = '#'))
    match after with
    | '/' :: _ => some (after.takeWhile (fun c => !(c = '?' || c = '#')))
    | _ => some ['/']

/-- Modelled from the browser collaborator `new URL(url).hostname`: the
authority of an http(s) URL, with userinfo and port removed and the
letters lower-cased. -/
def hostnameOf (url : String) : String :=
  match schemeSplit url.data with
  | none => ""
  | some (_, rest) =>
    let auth := authorityOf rest
    let hostPort := (auth.reverse.takeWhile (fun c => !(c = '@'))).reverse
    ⟨(hostPort.takeWhile (fun c => !(c = ':'))).map Char.toLower⟩

/-- `ContentParser.extractPathAfterCountry` (src/unnamed/part_001 lines
92-115): pathname, minus trailing `.html` and edge slashes, split on `/`,
dropped up to and including the first two-character segment; `null` when
the URL does not parse or no such segment exists. -/
def extractPathAfterCountry (url : String) : Option String :=
  match pathnameOf? url with
  | none => none
  | some path0 =>
    let parts := splitOnSlash (stripEdgeSlashes (stripHtmlSuffixL path0))
    match parts.findIdx? (fun part => part.length == 2) with
    | none => none
    | some i => some ⟨joinSlash (parts.drop (i + 1))⟩

/-- `ContentParser.normalizeUrl` (src/parser.js lines 140-159):
`new URL(url, 'https://www.samsung.com').pathname` with trailing `.html`
and edge slashes removed.  The base-relative resolution of the URL
collaborator is modelled for scheme-relative, root-relative and plain
relative references against the base path `/`. -/
def normalizeUrl (url : String) : String :=
  let path : List Char :=
    match pathnameOf? url with
    | some p => p
    | none =>
      match url.data with
      | '/' :: '/' :: rest =>
        let after := rest.dropWhile (fun c => !(c = '/' || c = '?' || c = '#'))
        (match after with
         | '/' :: _ => after.takeWhile (fun c => !(c = '?' || c = '#'))
         | _ => ['/'])
      | '/' :: _ => url.data.takeWhile (fun c => !(c = '?' || c = '#'))
      | _ => '/' :: url.data.takeWhile (fun c => !(c = '?' || c = '#'))
  ⟨stripEdgeSlashes (stripHtmlSuffixL path)⟩

/-- The fixed allow-list of src/unnamed/part_001 (constructor lines
28-40): `www.samsung.com` plus the QA domains. -/
def allowedDomainsV1 : List String :=
  ["www.samsung.com", "p6-eu-author.samsung.com", "p6-qa.samsung.com",
   "p6-pre-qa2.samsung.com", "p6-aem-sa.samsung.com", "p6-qaweb-sa.samsung.com"]

/-- `ContentParser.isValidDomain` (src/unnamed/part_001 lines 458-467):
exact membership of the lower-cased hostname in the fixed allow-list
(`Array.prototype.includes`). -/
def isValidDomain (url : String) : Bool :=
  memStr (strToLower (hostnameOf url)) allowedDomainsV1

/-- JavaScript `String.prototype.includes`: substring occurrence. -/
def jsIncludesL (sub : List Char) : List Char → Bool
  | [] => isPre sub []
  | c :: cs => isPre sub (c :: cs) || jsIncludesL sub cs

def jsIncludes (hay sub : String) : Bool := jsIncludesL sub.data hay.data

/-- `ContentParser.isValidDomain` of src/parser.js lines 162-173 and
src/unnamed/part_000 lines 68-79: some allow-list entry contains the
hostname or is contained in it (`String.prototype.includes`, both
directions). -/
def isValidDomainPjs (allowedDomains : List String) (url : String) : Bool :=
  allowedDomains.any (fun domain =>
    jsIncludes (hostnameOf url) domain || jsIncludes domain (hostnameOf url))

/-- `ContentParser.isUrlMatch` (src/unnamed/part_001 lines 527-545),
with `window.location.href` passed explicitly. -/
def isUrlMatch (urls : Option (List String)) (href : String) : Bool :=
  match urls with
  | none => true
  | some [] => true
  | some us =>
    if !(isValidDomain href) then false
    else
      match extractPathAfterCountry href with
      | none => false
      | some p =>
        if p = "" then false
        else us.any (fun u => extractPathAfterCountry u == some p)

/-- `ContentParser.isUrlMatch` of src/parser.js lines 202-221
(normalizeUrl-based variant with a configurable allow-list). -/
def isUrlMatchPjs (allowedDomains : List String) (urls : Option (List String))
    (href : String) : Bool :=
  match urls with
  | none => true
  | some [] => true
  | some us =>
    if !(isValidDomainPjs allowedDomains href) then false
    else us.any (fun u => normalizeUrl u == normalizeUrl href)

/-- `ContentParser.isDivisionMatch` (src/unnamed/part_001 lines 552-562;
identical logic in src/parser.js lines 224-234). `currentDivision` is the
constructor-normalized value (upper case, whitespace removed). -/
def isDivisionMatch (currentDivision : String) (div : Option JsVal) : Bool :=
  match div with
  | none => true
  | some v =>
    if !(v.truthy) then true
    else if currentDivision == "ALL" then true
    else memStr (strToUpper (jsValToString v)) (strSplitComma currentDivision)

/-- The constructor normalization of the `currentDivision` option:
`(options.currentDivision || 'ALL').toUpperCase().replace(/\s/g, '')`. -/
def mkCurrentDivision (opt : Option String) : String :=
  ⟨((opt.getD "ALL").data.map Char.toUpper).filter (fun c => !(isJsWs c))⟩

/-- The `div` field assigned by `parseXML` (src/unnamed/part_001 line
413): `disclaimer.getElementsByTagName('div')[0]?.textContent || 'ALL'`.
The argument is the text content of the first `<div>` child, `none` when
the element has no such child. -/
def xmlDivField : Option String → String
  | some s => if s == "" then "ALL" else s
  | none => "ALL"

/-- The date-range core of `ContentParser.isDisclaimerActive`
(src/unnamed/part_001 lines 495-520).  Timestamps are integers under an
order-preserving encoding of the `Date` values compared by the source;
`none` models an absent bound.  The source substitutes the reference
instant for an absent start bound and skips the end check for an absent
end bound. -/
def isDisclaimerActive (startDate endDate : Option Int) (checkDate : Int) :
    Bool :=
  if startDate.isNone && endDate.isNone then true
  else
    let s := startDate.getD checkDate
    if checkDate < s then false
    else
      match endDate with
      | some e => if checkDate > e then false else true
      | none => true

/-- An order-preserving integer encoding of the instant denoted by a
valid `YYYY-MM-DD HH:mm:ss` string (lexicographic in the six fields,
matching the order of the epoch timestamps compared by the source). -/
def dateKey (l : List Char) : Int :=
  match l with
  | [y1, y2, y3, y4, _, m1, m2, _, d1, d2, _, h1, h2, _, n1, n2, _, s1, s2] =>
    ((((Int.ofNat (digit2 y1 y2 * 100 + digit2 y3 y4) * 100 +
        Int.ofNat (digit2 m1 m2)) * 100 + Int.ofNat (digit2 d1 d2)) * 100 +
        Int.ofNat (digit2 h1 h2)) * 100 + Int.ofNat (digit2 n1 n2)) * 100 +
        Int.ofNat (digit2 s1 s2)
  | _ => 0

/-- `ContentParser.parseDate` (src/unnamed/part_001 lines 474-488):
`null` unless the string passes `isValidISODate`. -/
def parseDate (s : String) : Option Int :=
  if isValidISODate s then some (dateKey s.data) else none

/-- `isDisclaimerActive` on a record, resolving the date fields the way
the source does (`disclaimer.startDate ? parseDate(...) : checkDate`; a
failed parse yields `null`, which the numeric comparison coerces to 0). -/
def isDisclaimerActiveD (d : Disclaimer) (checkDate : Int) : Bool :=
  if !(fieldTruthy d.startDate) && !(fieldTruthy d.endDate) then true
  else
    let s? : Option Int :=
      if fieldTruthy d.startDate then
        some ((parseDate (jsKey d.startDate)).getD 0)
      else none
    let e? : Option Int :=
      if fieldTruthy d.endDate then parseDate (jsKey d.endDate) else none
    isDisclaimerActive s? e? checkDate

/-- Result shape of `insertPageContents`: the `id` values of the rendered
records (absent ids surface as `undefined`, i.e. `none`). -/
structure InsertResult where
  success : List (Option JsVal)
  failed : List (Option JsVal)
deriving DecidableEq, Repr

/-- One DOM node group written into the container: the optional `<h3>`
text and the `<p>` innerHTML. -/
structure RenderedDisclaimer where
  title : Option String
  body : String
deriving DecidableEq, Repr

/-- Per-instance widget state: the re-entrancy flag, the cached feed
(`this.data`, keyed object as association list) and the container's
content (`none` while no container element exists). -/
structure ParserState where
  isExecuted : Bool
  data : Option (List (String × Disclaimer))
  container : Option (List RenderedDisclaimer)
deriving DecidableEq, Repr

/-- Constructor options relevant to rendering. -/
structure ParserConfig where
  currentDivision : String
  ignoreApex : Bool
deriving DecidableEq, Repr

/-- The page environment consumed by one render pass:
`window.location.href` and the reference instant selected by the
QA-date logic. -/
structure RenderEnv where
  href : String
  checkDate : Int
deriving DecidableEq, Repr

/-- Truthiness of the `apex` hint (`!a.apex` treats 0 as missing). -/
def apexTruthy : Option Int → Bool
  | some n => n ≠ 0
  | none => false

/-- The sort comparator of `insertPageContents` (lines 605-611) as a
total `le` relation: records without a truthy `apex` sort after records
with one; ties keep original order. -/
def apexLe (a b : Disclaimer) : Bool :=
  match apexTruthy a.apex, apexTruthy b.apex with
  | false, false => true
  | false, true => false
  | true, false => true
  | true, true => a.apex.getD 0 ≤ b.apex.getD 0

/-- The DOM nodes emitted for one record (lines 614-631): optional title
heading, then a paragraph `prefix + '. ' + text` where the prefix is the
1-based position under `ignoreApex` and `apex || id` otherwise. -/
def renderOne (cfg : ParserConfig) (i : Nat) (d : Disclaimer) :
    RenderedDisclaimer :=
  let pfx :=
    if cfg.ignoreApex then toString (i + 1)
    else if apexTruthy d.apex then toString (d.apex.getD 0) else jsKey d.id
  { title := if fieldTruthy d.title then some (jsKey d.title) else none
    body := pfx ++ ". " ++ jsKey d.text }

def renderAll (cfg : ParserConfig) (ds : List Disclaimer) :
    List RenderedDisclaimer :=
  ds.enum.map (fun p => renderOne cfg p.1 p.2)

/-- The conjunction of the three eligibility predicates applied by the
filter in `insertPageContents` (lines 595-600). -/
def eligible (cfg : ParserConfig) (env : RenderEnv) (d : Disclaimer) : Bool :=
  isDisclaimerActiveD d env.checkDate && isUrlMatch d.URLs env.href &&
  isDivisionMatch cfg.currentDivision d.div

/-- `ContentParser.insertPageContents` (src/unnamed/part_001 lines
568-642) as a state transformer.  The guard rejects repeat executions;
inside the `try` block `isExecuted` is set, `init` runs when no data is
cached, and any error is caught: it is logged and the promise RESOLVES
with `{success: [], failed: []}`, the container untouched.  On success
the container is (re)created, cleared and filled with the eligible
records in sorted order. -/
def insertPageContents (cfg : ParserConfig) (feedIn : FeedInput)
    (env : RenderEnv) (st : ParserState) :
    Except String InsertResult × ParserState :=
  if st.isExecuted then (.error "Too many calls", st)
  else
    let dataAfterLoad : Option (List (String × Disclaimer)) :=
      match st.data with
      | some d => some d
      | none =>
        match loadData feedIn with
        | .ok vi => some vi.1
        | .error _ => none
    let initRes : Except String (List (String × Disclaimer)) :=
      match st.data with
      | some d => .ok d
      | none => init feedIn
    match initRes with
    | .error _ =>
      (.ok { success := [], failed := [] },
       { st with isExecuted := true, data := dataAfterLoad })
    | .ok feed =>
      let applicable := (jsObjectValues feed).filter (eligible cfg env)
      let sorted := if cfg.ignoreApex then applicable
                    else sortLe apexLe applicable
      (.ok { success := sorted.map (fun d => d.id), failed := [] },
       { isExecuted := true, data := some feed,
         container := some (renderAll cfg sorted) })

/-- A default configuration for concrete evaluations. -/
def cfg0 : ParserConfig := { currentDivision := "ALL", ignoreApex := false }

/-- A concrete page environment for concrete evaluations. -/
def env0 : RenderEnv := { href := "https://www.samsung.com/it/page", checkDate := 0 }

/-- A record that passes validation and stays valid after normalization. -/
def goodRec : Disclaimer :=
  { id := some (.num 1), index := some (.num 1),
    title := some (.str "Hello"), text := some (.str "World"),
    URLs := some ["https://www.samsung.com/it/x"],
    div := none, startDate := none, endDate := none, apex := none }

/-- A record whose `title` consists of one control character: it passes
validation (`trim` does not strip `\x01`), but `normalizeText` empties
the title, so the stored record fails `init`'s re-validation. -/
def ctrlTitleRec : Disclaimer :=
  { id := some (.num 1), index := some (.num 1),
    title := some (.str "\x01"), text := some (.str "x"),
    URLs := some ["https://www.samsung.com/it/"],
    div := none, startDate := none, endDate := none, apex := none }

/-- A record missing the mandatory `text` field. -/
def noTextRec : Disclaimer :=
  { id := some (.num 2), index := some (.num 2),
    title := some (.str "T"), text := none,
    URLs := some ["https://www.samsung.com/it/x"],
    div := none, startDate := none, endDate := none, apex := none }

/-- A record whose mandatory fields are all present but whose `id` is the
falsy integer 0. -/
def zeroIdRec : Disclaimer :=
  { id := some (.num 0), index := some (.num 1),
    title := some (.str "T"), text := some (.str "x"),
    URLs := some ["https://www.samsung.com/it/x"],
    div := none, startDate := none, endDate := none, apex := none }

/-- `sub` occurs as a contiguous substring of `s` (the relation computed
by JavaScript `String.prototype.includes`). -/
def SubstrOf (sub s : String) : Prop := ∃ p q, s.data = p ++ sub.data ++ q

/-- A character is acceptable in whitespace-normal form: any whitespace
present is a plain space. -/
def elemOk (c : Char) : Bool := !(isJsWs c) || c = ' '

/-- Whitespace-normal form: every whitespace character is a plain space
and no two adjacent characters are both whitespace.  This is the
invariant established by `collapseWsAux` and preserved by trimming. -/
def wsNormed : List Char → Bool
  | [] => true
  | [c] => elemOk c
  | a :: b :: t => elemOk a && !(isJsWs a && isJsWs b) && wsNormed (b :: t)

theorem memStr_iff (x : String) (l : List String) : memStr x l = true ↔ x ∈ l := by
  induction l with
  | nil => simp [memStr]
  | cons y ys ih => simp [memStr, ih, beq_iff_eq]

theorem isPre_iff (a : List Char) : ∀ b, isPre a b = true ↔ ∃ t, b = a ++ t := by
  induction a with
  | nil => intro b; simp [isPre]
  | cons x xs ih =>
    intro b
    cases b with
    | nil => simp [isPre]
    | cons y ys =>
      simp only [isPre, Bool.and_eq_true, decide_eq_true_eq, ih,
        List.cons_append, List.cons.injEq]
      constructor
      · rintro ⟨hxy, t, ht⟩; exact ⟨t, hxy.symm, ht⟩
      · rintro ⟨t, hyx, ht⟩; exact ⟨hyx.symm, t, ht⟩

theorem jsIncludesL_iff (sub : List Char) :
    ∀ hay, jsIncludesL sub hay = true ↔ ∃ p q, hay = p ++ sub ++ q := by
  intro hay
  induction hay with
  | nil =>
    simp only [jsIncludesL, isPre_iff]
    constructor
    · rintro ⟨t, ht⟩
      rcases List.append_eq_nil.mp ht.symm with ⟨h1, h2⟩
      exact ⟨[], [], by simp [h1]⟩
    · rintro ⟨p, q, hpq⟩
      rcases List.append_eq_nil.mp hpq.symm with ⟨h1, h2⟩
      rcases List.append_eq_nil.mp h1 with ⟨h3, h4⟩
      exact ⟨[], by simp [h4]⟩
  | cons c cs ih =>
    simp only [jsIncludesL, Bool.or_eq_true, isPre_iff, ih]
    constructor
    · rintro (⟨t, ht⟩ | ⟨p, q, hpq⟩)
      · exact ⟨[], t, by simpa using ht⟩
      · exact ⟨c :: p, q, by simp [hpq]⟩
    · rintro ⟨p, q, hpq⟩
      cases p with
      | nil => exact Or.inl ⟨q, by simpa using hpq⟩
      | cons c' p' =>
        simp only [List.cons_append, List.cons.injEq] at hpq
        exact Or.inr ⟨p', q, hpq.2⟩

theorem jsIncludes_iff (hay sub : String) :
    jsIncludes hay sub = true ↔ SubstrOf sub hay := by
  simp [jsIncludes, jsIncludesL_iff, SubstrOf]

theorem processDisclaimersAux_inv : ∀ (ds : List Disclaimer)
    (m : List (String × Disclaimer)) (inv : List JsVal),
    processDisclaimersAux (m, inv) ds
      = ((processDisclaimersAux (m, []) ds).1,
         inv ++ (processDisclaimersAux (m, []) ds).2) := by
  intro ds
  induction ds with
  | nil => intro m inv; simp [processDisclaimersAux]
  | cons d ds ih =>
    intro m inv
    by_cases h : validateDisclaimer d = true
    · simp only [processDisclaimersAux, h, if_true]
      exact ih _ inv
    · simp only [processDisclaimersAux, h, if_false]
      rw [ih m (inv ++ [jsIdOrUnknown d]), ih m ([] ++ [jsIdOrUnknown d])]
      simp

theorem processDisclaimersAux_snd : ∀ (ds : List Disclaimer)
    (m : List (String × Disclaimer)),
    (processDisclaimersAux (m, []) ds).2
      = (ds.filter (fun d => !(validateDisclaimer d))).map jsIdOrUnknown := by
  intro ds
  induction ds with
  | nil => intro m; rfl
  | cons d ds ih =>
    intro m
    by_cases h : validateDisclaimer d = true
    · simp only [processDisclaimersAux, h, if_true]
      simp [List.filter_cons, h, ih]
    · simp only [processDisclaimersAux, h, if_false]
      rw [processDisclaimersAux_inv ds m ([] ++ [jsIdOrUnknown d])]
      simp only [Bool.not_eq_true] at h
      simp [List.filter_cons, h, ih]

theorem processDisclaimers_snd (ds : List Disclaimer) :
    (processDisclaimers ds).2
      = (ds.filter (fun d => !(validateDisclaimer d))).map jsIdOrUnknown :=
  processDisclaimersAux_snd ds []

theorem processDisclaimersAux_fst : ∀ (ds : List Disclaimer)
    (m : List (String × Disclaimer)) (inv : List JsVal),
    ((ds.filter (fun d => validateDisclaimer d)).map
        (fun d => jsKey d.id)).Nodup →
    (∀ k ∈ (ds.filter (fun d => validateDisclaimer d)).map
        (fun d => jsKey d.id), ∀ p ∈ m, p.1 ≠ k) →
    (processDisclaimersAux (m, inv) ds).1
      = m ++ (ds.filter (fun d => validateDisclaimer d)).map
          (fun d => (jsKey d.id, normalizeRecord d)) := by
  intro ds
  induction ds with
  | nil => intro m inv _ _; simp [processDisclaimersAux]
  | cons d ds ih =>
    intro m inv hnd hdisj
    by_cases h : validateDisclaimer d = true
    · rw [List.filter_cons_of_pos h] at hnd hdisj ⊢
      simp only [List.map_cons, List.nodup_cons] at hnd
      have hkm : m.any (fun p => p.1 == jsKey d.id) = false := by
        rw [List.any_eq_false]
        intro p hp
        have hne := hdisj (jsKey d.id) (by simp) p hp
        simp [hne]
      have hstep : processDisclaimersAux (m, inv) (d :: ds)
          = processDisclaimersAux
              (m ++ [(jsKey d.id, normalizeRecord d)], inv) ds := by
        simp [processDisclaimersAux, h, jsObjectAssign, hkm]
      rw [hstep, ih _ inv hnd.2 ?_]
      · simp
      · intro k' hk' p hp
        rcases List.mem_append.mp hp with hp | hp
        · exact hdisj k' (by simp [hk']) p hp
        · simp only [List.mem_singleton] at hp
          subst hp
          show jsKey d.id ≠ k'
          intro hcontra
          exact hnd.1 (hcontra ▸ hk')
    · rw [List.filter_cons_of_neg (by simp [h])] at hnd hdisj ⊢
      simp only [processDisclaimersAux, h, if_false]
      rw [processDisclaimersAux_inv ds m (inv ++ [jsIdOrUnknown d])]
      exact ih m [] hnd hdisj

theorem mem_insertLe {α : Type} (le : α → α → Bool) (a : α) :
    ∀ (l : List α) (x : α), x ∈ insertLe le a l → x = a ∨ x ∈ l := by
  intro l
  induction l with
  | nil => intro x hx; simpa [insertLe] using hx
  | cons b bs ih =>
    intro x hx
    simp only [insertLe] at hx
    by_cases hle : le a b = true
    · rw [if_pos hle] at hx
      rcases List.mem_cons.mp hx with h | h
      · exact Or.inl h
      · exact Or.inr h
    · rw [if_neg hle] at hx
      rcases List.mem_cons.mp hx with h | h
      · exact Or.inr (by simp [h])
      · rcases ih x h with h2 | h2
        · exact Or.inl h2
        · exact Or.inr (List.mem_cons_of_mem _ h2)

theorem mem_sortLe {α : Type} (le : α → α → Bool) :
    ∀ (l : List α) (x : α), x ∈ sortLe le l → x ∈ l := by
  intro l
  induction l with
  | nil => intro x hx; simpa [sortLe] using hx
  | cons a as ih =>
    intro x hx
    rcases mem_insertLe le a _ x hx with h | h
    · exact h ▸ List.mem_cons_self a as
    · exact List.mem_cons_of_mem _ (ih x h)

theorem mem_jsObjectValues {x : Disclaimer} {m : List (String × Disclaimer)}
    (hx : x ∈ jsObjectValues m) : ∃ p ∈ m, p.2 = x := by
  simp only [jsObjectValues, List.mem_map] at hx
  rcases hx with ⟨p, hp, rfl⟩
  rcases List.mem_append.mp hp with hp | hp
  · exact ⟨p, List.mem_of_mem_filter (mem_sortLe _ _ p hp), rfl⟩
  · exact ⟨p, List.mem_of_mem_filter hp, rfl⟩

theorem replaceChar_eq_self {c : Char} {r l : List Char}
    (h : ∀ x ∈ l, x ≠ c) : replaceChar c r l = l := by
  induction l with
  | nil => rfl
  | cons x xs ih =>
    simp only [replaceChar, if_neg (h x (by simp)), List.singleton_append]
    rw [ih fun y hy => h y (by simp [hy])]

theorem escapeChars_eq_self {l : List Char}
    (h : ∀ x ∈ l, isEscChar x = false) : escapeChars l = l := by
  have h5 : ∀ x ∈ l, x ≠ '&' ∧ x ≠ '<' ∧ x ≠ '>' ∧ x ≠ '\x22' ∧ x ≠ '\x27' := by
    intro x hx
    have hx2 := h x hx
    simp only [isEscChar, Bool.or_eq_false_iff, decide_eq_false_iff_not] at hx2
    exact ⟨hx2.1.1.1.1, hx2.1.1.1.2, hx2.1.1.2, hx2.1.2, hx2.2⟩
  have e1 : replaceChar '&' "&amp;".data l = l :=
    replaceChar_eq_self (fun x hx => (h5 x hx).1)
  have e2 : replaceChar '<' "&lt;".data l = l :=
    replaceChar_eq_self (fun x hx => (h5 x hx).2.1)
  have e3 : replaceChar '>' "&gt;".data l = l :=
    replaceChar_eq_self (fun x hx => (h5 x hx).2.2.1)
  have e4 : replaceChar '\x22' "&quot;".data l = l :=
    replaceChar_eq_self (fun x hx => (h5 x hx).2.2.2.1)
  have e5 : replaceChar '\x27' "&#039;".data l = l :=
    replaceChar_eq_self (fun x hx => (h5 x hx).2.2.2.2)
  unfold escapeChars
  rw [e1, e2, e3, e4, e5]

theorem stripCtrl_eq_self {l : List Char}
    (h : ∀ x ∈ l, isCtrl x = false) : stripCtrl l = l := by
  unfold stripCtrl
  rw [List.filter_eq_self]
  intro a ha
  simp [h a ha]

theorem mem_collapseWsAux : ∀ (l : List Char) (b : Bool) (x : Char),
    x ∈ collapseWsAux b l → x = ' ' ∨ x ∈ l := by
  intro l
  induction l with
  | nil => intro b x hx; simp [collapseWsAux] at hx
  | cons c cs ih =>
    intro b x hx
    by_cases hws : isJsWs c = true
    · cases b with
      | true =>
        rw [show collapseWsAux true (c :: cs) = collapseWsAux true cs by
              simp [collapseWsAux, hws]] at hx
        rcases ih true x hx with h | h
        · exact Or.inl h
        · exact Or.inr (List.mem_cons_of_mem _ h)
      | false =>
        rw [show collapseWsAux false (c :: cs) = ' ' :: collapseWsAux true cs by
              simp [collapseWsAux, hws]] at hx
        rcases List.mem_cons.mp hx with h | h
        · exact Or.inl h
        · rcases ih true x h with h2 | h2
          · exact Or.inl h2
          · exact Or.inr (List.mem_cons_of_mem _ h2)
    · rw [show collapseWsAux b (c :: cs) = c :: collapseWsAux false cs by
            simp [collapseWsAux, hws]] at hx
      rcases List.mem_cons.mp hx with h | h
      · exact Or.inr (by simp [h])
      · rcases ih false x h with h2 | h2
        · exact Or.inl h2
        · exact Or.inr (List.mem_cons_of_mem _ h2)

theorem head_collapseWsAux_true : ∀ (l : List Char) (c : Char),
    (collapseWsAux true l).head? = some c → isJsWs c = false := by
  intro l
  induction l with
  | nil => intro c h; simp [collapseWsAux] at h
  | cons x xs ih =>
    intro c h
    by_cases hws : isJsWs x = true
    · rw [show collapseWsAux true (x :: xs) = collapseWsAux true xs by
            simp [collapseWsAux, hws]] at h
      exact ih c h
    · rw [show collapseWsAux true (x :: xs) = x :: collapseWsAux false xs by
            simp [collapseWsAux, hws]] at h
      simp only [List.head?_cons, Option.some.injEq] at h
      subst h
      simpa using hws

theorem wsNormed_tail {a : Char} {t : List Char}
    (h : wsNormed (a :: t) = true) : wsNormed t = true := by
  cases t with
  | nil => rfl
  | cons b t2 => simp only [wsNormed, Bool.and_eq_true] at h; exact h.2

theorem wsNormed_head_elemOk {a : Char} {t : List Char}
    (h : wsNormed (a :: t) = true) : elemOk a = true := by
  cases t with
  | nil => exact h
  | cons b t2 => simp only [wsNormed, Bool.and_eq_true] at h; exact h.1.1

theorem wsNormed_pair {a b : Char} {t : List Char}
    (h : wsNormed (a :: b :: t) = true) : (isJsWs a && isJsWs b) = false := by
  simp only [wsNormed, Bool.and_eq_true] at h
  have h2 := h.1.2
  cases hab : (isJsWs a && isJsWs b) with
  | false => rfl
  | true => rw [hab] at h2; simp at h2

theorem wsNormed_mk {a : Char} {t : List Char} (h1 : elemOk a = true)
    (h2 : ∀ b, t.head? = some b → (isJsWs a && isJsWs b) = false)
    (h3 : wsNormed t = true) : wsNormed (a :: t) = true := by
  cases t with
  | nil => exact h1
  | cons b t2 =>
    simp only [wsNormed, Bool.and_eq_true]
    refine ⟨⟨h1, ?_⟩, h3⟩
    simp [h2 b rfl]

theorem collapseWsAux_wsNormed : ∀ (l : List Char) (b : Bool),
    wsNormed (collapseWsAux b l) = true := by
  intro l
  induction l with
  | nil => intro b; rfl
  | cons c cs ih =>
    intro b
    by_cases hws : isJsWs c = true
    · cases b with
      | true =>
        rw [show collapseWsAux true (c :: cs) = collapseWsAux true cs by
              simp [collapseWsAux, hws]]
        exact ih true
      | false =>
        rw [show collapseWsAux false (c :: cs) = ' ' :: collapseWsAux true cs by
              simp [collapseWsAux, hws]]
        refine wsNormed_mk (by decide) ?_ (ih true)
        intro b0 hb0
        simp [head_collapseWsAux_true cs b0 hb0]
    · rw [show collapseWsAux b (c :: cs) = c :: collapseWsAux false cs by
            simp [collapseWsAux, hws]]
      simp only [Bool.not_eq_true] at hws
      refine wsNormed_mk (by simp [elemOk, hws]) ?_ (ih false)
      intro b0 _
      simp [hws]

theorem collapseWsAux_flagTrue_eq {l : List Char}
    (h : ∀ c, l.head? = some c → isJsWs c = false) :
    collapseWsAux true l = collapseWsAux false l := by
  cases l with
  | nil => rfl
  | cons c cs => simp [collapseWsAux, h c rfl]

theorem collapseWs_eq_self : ∀ {l : List Char}, wsNormed l = true →
    collapseWsAux false l = l := by
  intro l
  induction l with
  | nil => intro _; rfl
  | cons c cs ih =>
    intro h
    have hE := wsNormed_head_elemOk h
    have hT := wsNormed_tail h
    by_cases hws : isJsWs c = true
    · have hc : c = ' ' := by
        simp only [elemOk, hws, Bool.not_true, Bool.false_or,
          decide_eq_true_eq] at hE
        exact hE
      have hflag : collapseWsAux true cs = collapseWsAux false cs := by
        apply collapseWsAux_flagTrue_eq
        intro b hb
        cases cs with
        | nil => simp at hb
        | cons b2 t2 =>
          simp only [List.head?_cons, Option.some.injEq] at hb
          subst hb
          simpa [hws] using wsNormed_pair h
      rw [show collapseWsAux false (c :: cs) = ' ' :: collapseWsAux true cs by
            simp [collapseWsAux, hws]]
      rw [hflag, ih hT, hc]
    · rw [show collapseWsAux false (c :: cs) = c :: collapseWsAux false cs by
            simp [collapseWsAux, hws]]
      rw [ih hT]

theorem dropWhile_head_false (p : Char → Bool) : ∀ (l : List Char) (c : Char),
    (l.dropWhile p).head? = some c → p c = false := by
  intro l
  induction l with
  | nil => intro c h; simp [List.dropWhile] at h
  | cons x xs ih =>
    intro c h
    by_cases hp : p x = true
    · rw [List.dropWhile_cons, if_pos hp] at h
      exact ih c h
    · rw [List.dropWhile_cons, if_neg hp] at h
      simp only [List.head?_cons, Option.some.injEq] at h
      subst h
      simpa using hp

theorem dropWhile_eq_self_of_head (p : Char → Bool) (l : List Char)
    (h : ∀ c, l.head? = some c → p c = false) : l.dropWhile p = l := by
  cases l with
  | nil => rfl
  | cons x xs => simp [List.dropWhile_cons, h x rfl]

theorem dropWhile_suffix_ex (p : Char → Bool) (l : List Char) :
    ∃ t, t ++ l.dropWhile p = l := by
  induction l with
  | nil => exact ⟨[], rfl⟩
  | cons x xs ih =>
    by_cases hp : p x = true
    · rcases ih with ⟨t, ht⟩
      exact ⟨x :: t, by simp [List.dropWhile_cons, hp, ht]⟩
    · exact ⟨[], by simp [List.dropWhile_cons, hp]⟩

theorem wsNormed_append_left : ∀ (l m : List Char),
    wsNormed (l ++ m) = true → wsNormed l = true := by
  intro l
  induction l with
  | nil => intro m _; rfl
  | cons a t ih =>
    intro m h
    cases t with
    | nil => exact wsNormed_head_elemOk (t := m) (by simpa using h)
    | cons b t2 =>
      have h' : wsNormed (a :: b :: (t2 ++ m)) = true := by simpa using h
      refine wsNormed_mk (wsNormed_head_elemOk h') ?_ (ih m (wsNormed_tail h'))
      intro b0 hb0
      simp only [List.head?_cons, Option.some.injEq] at hb0
      subst hb0
      exact wsNormed_pair h'

theorem dropWhile_wsNormed : ∀ (l : List Char), wsNormed l = true →
    wsNormed (l.dropWhile isJsWs) = true := by
  intro l
  induction l with
  | nil => intro _; rfl
  | cons x xs ih =>
    intro h
    by_cases hp : isJsWs x = true
    · rw [List.dropWhile_cons, if_pos hp]
      exact ih (wsNormed_tail h)
    · rw [List.dropWhile_cons, if_neg hp]
      exact h

theorem jsTrimRightL_append_ex (l : List Char) : ∃ m, jsTrimRightL l ++ m = l := by
  rcases dropWhile_suffix_ex isJsWs l.reverse with ⟨t, ht⟩
  refine ⟨t.reverse, ?_⟩
  have h2 := congrArg List.reverse ht
  simpa [jsTrimRightL, List.reverse_append] using h2

theorem jsTrimRightL_wsNormed (l : List Char) (h : wsNormed l = true) :
    wsNormed (jsTrimRightL l) = true := by
  rcases jsTrimRightL_append_ex l with ⟨m, hm⟩
  exact wsNormed_append_left _ m (by rwa [hm])

theorem jsTrimRightL_last (l : List Char) (c : Char)
    (h : (jsTrimRightL l).getLast? = some c) : isJsWs c = false := by
  apply dropWhile_head_false isJsWs l.reverse
  rwa [jsTrimRightL, List.getLast?_reverse] at h

theorem jsTrimRightL_eq_self (l : List Char)
    (h : ∀ c, l.getLast? = some c → isJsWs c = false) : jsTrimRightL l = l := by
  have h2 : l.reverse.dropWhile isJsWs = l.reverse := by
    apply dropWhile_eq_self_of_head
    intro c hc
    exact h c (by rwa [List.head?_reverse] at hc)
  simp [jsTrimRightL, h2]

theorem jsTrimRightL_head (l : List Char) (c : Char)
    (h : (jsTrimRightL l).head? = some c) : l.head? = some c := by
  rcases jsTrimRightL_append_ex l with ⟨m, hm⟩
  rw [← hm]
  cases h' : jsTrimRightL l with
  | nil => rw [h'] at h; simp at h
  | cons a t =>
    rw [h'] at h
    simp only [List.head?_cons, Option.some.injEq] at h
    simp [h]

theorem mem_jsTrimRightL {x : Char} {l : List Char}
    (h : x ∈ jsTrimRightL l) : x ∈ l := by
  rcases jsTrimRightL_append_ex l with ⟨m, hm⟩
  rw [← hm]
  exact List.mem_append_left m h

theorem mem_dropWhile {x : Char} {p : Char → Bool} {l : List Char}
    (h : x ∈ l.dropWhile p) : x ∈ l := by
  rcases dropWhile_suffix_ex p l with ⟨t, ht⟩
  rw [← ht]
  exact List.mem_append_right t h

theorem normalizeTextCore_idem (l : List Char)
    (h : ∀ c ∈ l, isCtrl c = false ∧ isEscChar c = false) :
    normalizeTextCore (normalizeTextCore l) = normalizeTextCore l := by
  have hesc : escapeChars l = l := escapeChars_eq_self (fun x hx => (h x hx).2)
  have hctl : stripCtrl l = l := stripCtrl_eq_self (fun x hx => (h x hx).1)
  have hm2 : normalizeTextCore l
      = jsTrimRightL (jsTrimLeftL (collapseWsAux false l)) := by
    rw [normalizeTextCore, hesc, hctl]
  set m := normalizeTextCore l with hm
  have hmem : ∀ x ∈ m, x = ' ' ∨ x ∈ l := by
    intro x hx
    rw [hm2] at hx
    have hx1 := mem_jsTrimRightL hx
    have hx2 := mem_dropWhile (p := isJsWs) hx1
    exact mem_collapseWsAux l false x hx2
  have hescm : escapeChars m = m := by
    apply escapeChars_eq_self
    intro x hx
    rcases hmem x hx with h1 | h1
    · subst h1; rfl
    · exact (h x h1).2
  have hctlm : stripCtrl m = m := by
    apply stripCtrl_eq_self
    intro x hx
    rcases hmem x hx with h1 | h1
    · subst h1; rfl
    · exact (h x h1).1
  have hwsn : wsNormed m = true := by
    rw [hm2]
    exact jsTrimRightL_wsNormed _ (dropWhile_wsNormed _ (collapseWsAux_wsNormed l false))
  have hcoll : collapseWsAux false m = m := collapseWs_eq_self hwsn
  have hheadm : ∀ c, m.head? = some c → isJsWs c = false := by
    intro c hc
    rw [hm2] at hc
    exact dropWhile_head_false isJsWs _ c (jsTrimRightL_head _ c hc)
  have htl : jsTrimLeftL m = m := dropWhile_eq_self_of_head isJsWs m hheadm
  have htr : jsTrimRightL m = m := by
    apply jsTrimRightL_eq_self
    intro c hc
    rw [hm2] at hc
    exact jsTrimRightL_last _ c hc
  show normalizeTextCore m = m
  rw [normalizeTextCore, hescm, hctlm, hcoll]
  rw [show jsTrimLeftL m = m from htl, htr]

/-- C1 (amended): a pipeline-level error during `insertPageContents`
(fetch/transport failure, parse failure, or a feed missing the top-level
`disclaimers` key) leaves the container untouched, but the promise does
NOT reject: the `catch` block absorbs the error and the call resolves
normally with `{success: [], failed: []}`. -/
theorem C1_pipeline_error_absorbed (cfg : ParserConfig) (env : RenderEnv)
    (st : ParserState) (h1 : st.isExecuted = false) (h2 : st.data = none) :
    (∀ t, insertPageContents cfg (.fetchFail t) env st
        = (.ok { success := [], failed := [] }, { st with isExecuted := true }))
    ∧ (∀ m, insertPageContents cfg (.parseFail m) env st
        = (.ok { success := [], failed := [] }, { st with isExecuted := true }))
    ∧ insertPageContents cfg (.parsed none) env st
        = (.ok { success := [], failed := [] }, { st with isExecuted := true }) := by
  obtain ⟨e, dt, ct⟩ := st
  simp only at h1 h2
  subst h1; subst h2
  exact ⟨fun t => rfl, fun m => rfl, rfl⟩

/-- C1 witness: the amended theorem evaluated at a concrete fresh state
and a concrete malformed-feed input. -/
theorem C1_pipeline_error_witness :
    insertPageContents cfg0 (.parsed none) env0 ⟨false, none, none⟩
      = (.ok { success := [], failed := [] }, ⟨true, none, none⟩) :=
  (C1_pipeline_error_absorbed cfg0 env0 ⟨false, none, none⟩ rfl rfl).2.2

/-- C1 counterexample: a transport failure makes `insertPageContents`
resolve with `{success: [], failed: []}` — the result the claim says is
never produced — instead of rejecting. -/
theorem C1_rejects_counterexample :
    insertPageContents cfg0 (.fetchFail "error") env0 ⟨false, none, none⟩
      = (.ok { success := [], failed := [] }, ⟨true, none, none⟩) := rfl

/-- C2 (amended): `normalizeText` is idempotent on strings containing no
control characters and none of the five escaped characters `& < > " '`;
on a string containing an escapable character the entity text produced by
the first pass is escaped again by the second. -/
theorem C2_normalize_idempotent_amended (s : String)
    (h : ∀ c ∈ s.data, isCtrl c = false ∧ isEscChar c = false) :
    normalizeText (normalizeText s) = normalizeText s := by
  have h2 := normalizeTextCore_idem s.data h
  simp only [normalizeText]
  exact congrArg String.mk h2

/-- C2 witness: the amended idempotence at a concrete whitespace-bearing
string. -/
theorem C2_normalize_idempotent_witness :
    normalizeText (normalizeText "a  b") = normalizeText "a  b" :=
  C2_normalize_idempotent_amended "a  b" (by decide)

/-- C2 counterexample: `"&"` contains no control character, yet
`normalizeText (normalizeText "&") = "&amp;amp;" ≠ "&amp;" =
normalizeText "&"` — an already-escaped string is double-escaped. -/
theorem C2_double_escape_counterexample :
    normalizeText (normalizeText "&") ≠ normalizeText "&" := by decide

/-- C3 (amended): per-record validation failure is non-fatal — invalid
records are dropped and their ids (or `"unknown"`) collected — and the
load produces exactly the validated records, PROVIDED (a) the valid
records' ids yield pairwise-distinct feed keys (the feed's documented
uniqueness invariant; a duplicate id overwrites the earlier record in
the id-keyed object) and (b) every record that passes validation still
validates after its title/text normalization; when (b) fails, `init`'s
re-validation of the stored (mutated) records rejects the whole load. -/
theorem C3_validation_nonfatal_amended (ds : List Disclaimer)
    (hnodup : ((ds.filter (fun d => validateDisclaimer d)).map
        (fun d => jsKey d.id)).Nodup)
    (h : ∀ d ∈ ds, validateDisclaimer d = true →
        validateDisclaimer (normalizeRecord d) = true) :
    init (.parsed (some ds))
      = .ok ((ds.filter (fun d => validateDisclaimer d)).map
          (fun d => (jsKey d.id, normalizeRecord d)))
    ∧ (processDisclaimers ds).2
      = (ds.filter (fun d => !(validateDisclaimer d))).map jsIdOrUnknown := by
  refine ⟨?_, processDisclaimers_snd ds⟩
  have hfst : (processDisclaimers ds).1
      = (ds.filter (fun d => validateDisclaimer d)).map
          (fun d => (jsKey d.id, normalizeRecord d)) := by
    have := processDisclaimersAux_fst ds [] [] hnodup
      (fun k _ p hp => absurd hp (List.not_mem_nil p))
    simpa [processDisclaimers] using this
  have hany : (jsObjectValues (processDisclaimers ds).1).any
      (fun d => !(validateDisclaimer d)) = false := by
    rw [List.any_eq_false]
    intro x hx
    rcases mem_jsObjectValues hx with ⟨p, hp, rfl⟩
    rw [hfst] at hp
    simp only [List.mem_map, List.mem_filter] at hp
    rcases hp with ⟨d, ⟨hd, hvd⟩, rfl⟩
    simp [h d hd hvd]
  simp only [init, loadData]
  rw [hany]
  simp [hfst]

/-- C3 witness: the amended theorem on a feed of one well-formed record
and one record missing `text` (the valid records have distinct ids). -/
theorem C3_validation_nonfatal_witness :
    init (.parsed (some [goodRec, noTextRec]))
      = .ok (([goodRec, noTextRec].filter (fun d => validateDisclaimer d)).map
          (fun d => (jsKey d.id, normalizeRecord d)))
    ∧ (processDisclaimers [goodRec, noTextRec]).2
      = ([goodRec, noTextRec].filter (fun d => !(validateDisclaimer d))).map
          jsIdOrUnknown :=
  C3_validation_nonfatal_amended [goodRec, noTextRec] (by decide) (by decide)

/-- C3 counterexample: a record whose title is the single control
character `\x01` passes validation, but its normalized title is empty,
so `init`'s re-validation rejects the entire load — the load does not
succeed for every input collection. -/
theorem C3_load_rejects_counterexample :
    validateDisclaimer ctrlTitleRec = true
    ∧ init (.parsed (some [ctrlTitleRec])) = .error "Invalid JSON format" :=
  ⟨rfl, rfl⟩

/-- C4: the active-date-range predicate is boundary-inclusive and treats
absent bounds as claimed: no bounds — always active; only a lower bound —
active once the instant reaches it; only an upper bound — active until
the instant passes it; both bounds (start ≤ end) — active exactly on the
closed interval. -/
theorem C4_active_date_range (s e t : Int) :
    isDisclaimerActive none none t = true
    ∧ (isDisclaimerActive (some s) none t = true ↔ s ≤ t)
    ∧ (isDisclaimerActive none (some e) t = true ↔ t ≤ e)
    ∧ (s ≤ e →
        (isDisclaimerActive (some s) (some e) t = true ↔ (s ≤ t ∧ t ≤ e))) := by
  refine ⟨rfl, ?_, ?_, fun _ => ?_⟩
  · rw [show isDisclaimerActive (some s) none t
        = (if t < s then false else true) from rfl]
    by_cases h : t < s <;> simp [h] <;> omega
  · rw [show isDisclaimerActive none (some e) t
        = (if t < t then false else if t > e then false else true) from rfl]
    rw [if_neg (lt_irrefl t)]
    by_cases h : t > e <;> simp [h] <;> omega
  · rw [show isDisclaimerActive (some s) (some e) t
        = (if t < s then false else if t > e then false else true) from rfl]
    by_cases h1 : t < s
    · simp [h1]
    · by_cases h2 : t > e <;> simp [h1, h2] <;> omega

/-- C4 witness: the both-bounds case evaluated at start 3, end 7,
instant 5. -/
theorem C4_active_date_range_witness :
    isDisclaimerActive (some 3) (some 7) 5 = true :=
  ((C4_active_date_range 3 7 5).2.2.2 (by decide)).mpr (by decide)

/-- C5: the re-entrancy guard — any invocation of `insertPageContents` on
an instance whose `isExecuted` flag is set (first call outstanding or
completed) rejects with `Too many calls` and leaves the state, container
included, unchanged; and every invocation on a fresh instance sets the
flag before anything else. -/
theorem C5_reentrancy_guard :
    (∀ (cfg : ParserConfig) (feedIn : FeedInput) (env : RenderEnv)
        (st : ParserState), st.isExecuted = true →
        insertPageContents cfg feedIn env st = (.error "Too many calls", st))
    ∧ (∀ (cfg : ParserConfig) (feedIn : FeedInput) (env : RenderEnv)
        (st : ParserState), st.isExecuted = false →
        ((insertPageContents cfg feedIn env st).2).isExecuted = true) := by
  constructor
  · intro cfg feedIn env st h
    simp [insertPageContents, h]
  · intro cfg feedIn env st h
    obtain ⟨e, dt, ct⟩ := st
    simp only at h
    subst h
    cases dt with
    | some d => rfl
    | none =>
      cases hinit : init feedIn with
      | error msg => simp [insertPageContents, hinit]
      | ok f => simp [insertPageContents, hinit]

/-- C5 witness: a fresh instance renders once, and the second call on the
resulting state fails with `Too many calls`, leaving that state (and so
the rendered container) exactly as the first call left it. -/
theorem C5_reentrancy_guard_witness :
    insertPageContents cfg0 (.parsed (some [])) env0
        ((insertPageContents cfg0 (.parsed (some [])) env0
            ⟨false, none, none⟩).2)
      = (.error "Too many calls",
         (insertPageContents cfg0 (.parsed (some [])) env0
            ⟨false, none, none⟩).2) :=
  C5_reentrancy_guard.1 cfg0 (.parsed (some [])) env0 _
    (C5_reentrancy_guard.2 cfg0 (.parsed (some [])) env0 ⟨false, none, none⟩ rfl)

/-- C6 (amended): in the configurable variant (src/parser.js and
src/unnamed/part_000) the host gate accepts exactly when some allow-list
entry is related to the hostname by substring containment in either
direction; in the src/unnamed/part_001 variant the gate instead requires
the lower-cased hostname to be exactly a member of its fixed allow-list. -/
theorem C6_domain_gate_amended :
    (∀ (doms : List String) (url : String),
        isValidDomainPjs doms url = true ↔
          ∃ d ∈ doms,
            SubstrOf d (hostnameOf url) ∨ SubstrOf (hostnameOf url) d)
    ∧ (∀ url : String, isValidDomain url = true ↔
        strToLower (hostnameOf url) ∈ allowedDomainsV1) := by
  constructor
  · intro doms url
    simp only [isValidDomainPjs, List.any_eq_true, Bool.or_eq_true,
      jsIncludes_iff]
  · intro url
    simp only [isValidDomain, memStr_iff]

/-- C6 counterexample: for the host `samsung.com` the bidirectional
substring relation against part_001's allow-list holds (the entry
`www.samsung.com` contains it), yet part_001's `isValidDomain` rejects
it — the gate is not substring containment. -/
theorem C6_substring_counterexample :
    isValidDomain "https://samsung.com/it/x" = false
    ∧ isValidDomainPjs allowedDomainsV1 "https://samsung.com/it/x" = true := by
  exact ⟨rfl, rfl⟩

/-- C7 (amended): when the host gate passes and the record's URL list is
nonempty, the URL-match predicate holds iff the normalized current path
equals the normalization of some record URL — with the proviso that in
the locale-aware part_001 variant the normalized current path must also
be nonempty (and a locale segment present); the plain variant needs no
proviso.  In particular `urls = ["https://host/it/page/"]` matches
`https://host/it/page.html` and not `https://host/it/other`. -/
theorem C7_url_match_amended :
    (∀ (us : List String) (href : String) (p : String),
        isValidDomain href = true → extractPathAfterCountry href = some p →
        p ≠ "" → us ≠ [] →
        (isUrlMatch (some us) href = true ↔
          ∃ u ∈ us, extractPathAfterCountry u = some p))
    ∧ (∀ (doms us : List String) (href : String),
        isValidDomainPjs doms href = true → us ≠ [] →
        (isUrlMatchPjs doms (some us) href = true ↔
          ∃ u ∈ us, normalizeUrl u = normalizeUrl href))
    ∧ isUrlMatch (some ["https://www.samsung.com/it/page/"])
        "https://www.samsung.com/it/page.html" = true
    ∧ isUrlMatch (some ["https://www.samsung.com/it/page/"])
        "https://www.samsung.com/it/other" = false := by
  refine ⟨?_, ?_, rfl, rfl⟩
  · intro us href p hdom hextr hp hne
    cases us with
    | nil => exact absurd rfl hne
    | cons u us' =>
      rw [show isUrlMatch (some (u :: us')) href
          = (if !(isValidDomain href) then false
             else match extractPathAfterCountry href with
               | none => false
               | some q => if q = "" then false
                 else (u :: us').any
                   (fun x => extractPathAfterCountry x == some q)) from rfl]
      rw [hdom, hextr]
      simp only [Bool.not_true, Bool.false_eq_true, if_false, if_neg hp]
      simp [List.any_eq_true, beq_iff_eq]
  · intro doms us href hdom hne
    cases us with
    | nil => exact absurd rfl hne
    | cons u us' =>
      rw [show isUrlMatchPjs doms (some (u :: us')) href
          = (if !(isValidDomainPjs doms href) then false
             else (u :: us').any
               (fun x => normalizeUrl x == normalizeUrl href)) from rfl]
      rw [hdom]
      simp [List.any_eq_true, beq_iff_eq]

/-- C7 witness: the locale-aware iff evaluated on the claim's concrete
example with normalized path `page`. -/
theorem C7_url_match_witness :
    isUrlMatch (some ["https://www.samsung.com/it/page/"])
        "https://www.samsung.com/it/page.html" = true
    ↔ ∃ u ∈ ["https://www.samsung.com/it/page/"],
        extractPathAfterCountry u = some "page" :=
  C7_url_match_amended.1 ["https://www.samsung.com/it/page/"]
    "https://www.samsung.com/it/page.html" "page" (by decide) (by decide)
    (by decide) (by decide)

/-- C7 counterexample: the current URL `https://www.samsung.com/it/`
passes the host gate and its normalized path (the empty string) equals
the normalization of the record URL — which is the very same URL — yet
`isUrlMatch` returns false: exact path equality is not sufficient when
the normalized current path is empty. -/
theorem C7_empty_path_counterexample :
    isUrlMatch (some ["https://www.samsung.com/it/"])
        "https://www.samsung.com/it/" = false
    ∧ isValidDomain "https://www.samsung.com/it/" = true
    ∧ extractPathAfterCountry "https://www.samsung.com/it/" = some "" :=
  ⟨rfl, rfl, rfl⟩

/-- C8: a record missing any of the mandatory fields `id`, `index`,
`title`, `text`, `URLs` fails `validateDisclaimer`, is excluded from the
feed built by `processDisclaimers`, and its id (or `"unknown"` when the
id itself is absent or falsy) is appended to the invalid-records
diagnostics list. -/
theorem C8_missing_mandatory_rejected (d : Disclaimer) (ds : List Disclaimer)
    (h : d.id = none ∨ d.index = none ∨ d.title = none ∨ d.text = none ∨
         d.URLs = none) :
    validateDisclaimer d = false
    ∧ processDisclaimers (d :: ds)
        = ((processDisclaimers ds).1,
           jsIdOrUnknown d :: (processDisclaimers ds).2) := by
  have hm : mandatoryOk d = false := by
    rcases h with h | h | h | h | h <;>
      simp [mandatoryOk, h, fieldTruthy, urlsTruthy]
  have hv : validateDisclaimer d = false := by
    simp [validateDisclaimer, hm]
  refine ⟨hv, ?_⟩
  show processDisclaimersAux ([], []) (d :: ds) = _
  rw [show processDisclaimersAux ([], []) (d :: ds)
      = processDisclaimersAux ([], [jsIdOrUnknown d]) ds by
    simp [processDisclaimersAux, hv]]
  rw [processDisclaimersAux_inv ds [] [jsIdOrUnknown d]]
  rfl

/-- C8 witness: the theorem applied to a record missing `text`. -/
theorem C8_missing_mandatory_witness :
    validateDisclaimer noTextRec = false
    ∧ processDisclaimers [noTextRec]
        = ((processDisclaimers []).1,
           jsIdOrUnknown noTextRec :: (processDisclaimers []).2) :=
  C8_missing_mandatory_rejected noTextRec []
    (Or.inr (Or.inr (Or.inr (Or.inl rfl))))

/-- C9: the XML mapping assigns the literal string `"ALL"` to a
`<disclaimer>` lacking a `<div>` child, and for any configured division
set other than `"ALL"` that does not list the entry `"ALL"`,
`isDivisionMatch` rejects such records — unlike records whose division
field is absent, which always match. -/
theorem C9_xml_div_not_wildcard (cd : String) (h1 : cd ≠ "ALL")
    (h2 : "ALL" ∉ strSplitComma cd) :
    xmlDivField none = "ALL"
    ∧ isDivisionMatch cd (some (.str "ALL")) = false
    ∧ isDivisionMatch cd none = true := by
  refine ⟨rfl, ?_, rfl⟩
  have hmem : memStr "ALL" (strSplitComma cd) = false := by
    cases hc : memStr "ALL" (strSplitComma cd) with
    | false => rfl
    | true => exact absurd ((memStr_iff _ _).mp hc) h2
  have hbe : (cd == "ALL") = false := by
    cases hb : cd == "ALL" with
    | false => rfl
    | true => exact absurd (by simpa using hb) h1
  have hsu : strToUpper (jsValToString (.str "ALL")) = "ALL" := by decide
  simp [isDivisionMatch, JsVal.truthy, hbe, hsu, hmem]

/-- C9 witness: the theorem at `currentDivision = "MX"`. -/
theorem C9_xml_div_not_wildcard_witness :
    xmlDivField none = "ALL"
    ∧ isDivisionMatch "MX" (some (.str "ALL")) = false
    ∧ isDivisionMatch "MX" none = true :=
  C9_xml_div_not_wildcard "MX" (by decide) (by decide)

/-- C10: a record with every mandatory field present but a falsy `id` or
`index` (integer 0 or empty string) is rejected by the mandatory-field
truthiness filter and excluded from the feed; when the id is the falsy
value, the diagnostics entry is the placeholder `"unknown"`, not the
actual id. -/
theorem C10_falsy_id_index_rejected (d : Disclaimer) (ds : List Disclaimer)
    (h1 : d.id.isSome = true) (h2 : d.index.isSome = true)
    (h3 : d.title.isSome = true) (h4 : d.text.isSome = true)
    (h5 : d.URLs.isSome = true)
    (h6 : fieldTruthy d.id = false ∨ fieldTruthy d.index = false) :
    validateDisclaimer d = false
    ∧ processDisclaimers (d :: ds)
        = ((processDisclaimers ds).1,
           jsIdOrUnknown d :: (processDisclaimers ds).2)
    ∧ (fieldTruthy d.id = false → jsIdOrUnknown d = .str "unknown") := by
  have hm : mandatoryOk d = false := by
    rcases h6 with h | h <;> simp [mandatoryOk, h]
  have hv : validateDisclaimer d = false := by
    simp [validateDisclaimer, hm]
  have hproc : processDisclaimers (d :: ds)
      = ((processDisclaimers ds).1,
         jsIdOrUnknown d :: (processDisclaimers ds).2) := by
    show processDisclaimersAux ([], []) (d :: ds) = _
    rw [show processDisclaimersAux ([], []) (d :: ds)
        = processDisclaimersAux ([], [jsIdOrUnknown d]) ds by
      simp [processDisclaimersAux, hv]]
    rw [processDisclaimersAux_inv ds [] [jsIdOrUnknown d]]
    rfl
  refine ⟨hv, hproc, ?_⟩
  intro hfalsy
  rcases Option.isSome_iff_exists.mp h1 with ⟨v, hvid⟩
  rw [hvid] at hfalsy
  simp only [fieldTruthy] at hfalsy
  simp [jsIdOrUnknown, hvid, hfalsy]

/-- C10 witness: the theorem at a record whose id is the integer 0. -/
theorem C10_falsy_id_index_witness :
    validateDisclaimer zeroIdRec = false
    ∧ processDisclaimers [zeroIdRec]
        = ((processDisclaimers []).1,
           jsIdOrUnknown zeroIdRec :: (processDisclaimers []).2)
    ∧ (fieldTruthy zeroIdRec.id = false →
        jsIdOrUnknown zeroIdRec = .str "unknown") :=
  C10_falsy_id_index_rejected zeroIdRec [] rfl rfl rfl rfl rfl (Or.inl rfl)
